import Mathlib

/-!
Verification of the flakeheaven result-cache subsystem
(`src/flakeheaven/_logic/_snapshot.py`).

The development shallowly embeds the cache logic: byte strings are
`List Nat`, the MD5 digest is implemented concretely, the JSON encoding
produced by `json.dumps(..., sort_keys=True, cls=_CustomEncoder)` is
modelled by `serializeVal`, and the filesystem is explicit state passed
through the `Snapshot` operations.
-/

set_option maxRecDepth 100000

namespace Flakeheaven

/-! ## Byte strings and hex -/

/-- Lowercase hex digit for a value below 16 (as produced by `hexdigest`). -/
def hexDigit (n : Nat) : Char :=
  if n < 10 then Char.ofNat (48 + n) else Char.ofNat (87 + n)

/-- Two lowercase hex digits of one byte. -/
def byteHex (b : Nat) : List Char :=
  [hexDigit (b / 16), hexDigit (b % 16)]

/-- UTF-8 encoding of one Unicode code point, as Python's `str.encode()`. -/
def utf8Char (c : Nat) : List Nat :=
  if c < 128 then [c]
  else if c < 2048 then [192 + c / 64, 128 + c % 64]
  else if c < 65536 then [224 + c / 4096, 128 + (c / 64) % 64, 128 + c % 64]
  else [240 + c / 262144, 128 + (c / 4096) % 64, 128 + (c / 64) % 64, 128 + c % 64]

/-- `str.encode()`: UTF-8 bytes of a string. -/
def strBytes (s : String) : List Nat :=
  s.data.flatMap (fun ch => utf8Char ch.toNat)

/-! ## MD5 (`hashlib.md5`)

A direct implementation of RFC 1321 over byte lists, with 32-bit words
represented as `Nat` reduced modulo `2 ^ 32`.  `md5Hex` is the
`hexdigest()` of a byte string. -/

/-- The 64 MD5 sine-derived constants `K[i] = floor(abs(sin(i+1)) * 2^32)`. -/
def md5K : List Nat :=
  [3614090360, 3905402710, 606105819, 3250441966, 4118548399, 1200080426,
   2821735955, 4249261313, 1770035416, 2336552879, 4294925233, 2304563134,
   1804603682, 4254626195, 2792965006, 1236535329, 4129170786, 3225465664,
   643717713, 3921069994, 3593408605, 38016083, 3634488961, 3889429448,
   568446438, 3275163606, 4107603335, 1163531501, 2850285829, 4243563512,
   1735328473, 2368359562, 4294588738, 2272392833, 1839030562, 4259657740,
   2763975236, 1272893353, 4139469664, 3200236656, 681279174, 3936430074,
   3572445317, 76029189, 3654602809, 3873151461, 530742520, 3299628645,
   4096336452, 1126891415, 2878612391, 4237533241, 1700485571, 2399980690,
   4293915773, 2240044497, 1873313359, 4264355552, 2734768916, 1309151649,
   4149444226, 3174756917, 718787259, 3951481745]

/-- The per-round left-rotation amounts of MD5. -/
def md5S : List Nat :=
  [7, 12, 17, 22, 7, 12, 17, 22, 7, 12, 17, 22, 7, 12, 17, 22,
   5, 9, 14, 20, 5, 9, 14, 20, 5, 9, 14, 20, 5, 9, 14, 20,
   4, 11, 16, 23, 4, 11, 16, 23, 4, 11, 16, 23, 4, 11, 16, 23,
   6, 10, 15, 21, 6, 10, 15, 21, 6, 10, 15, 21, 6, 10, 15, 21]

/-- Bitwise complement within 32 bits. -/
def not32 (x : Nat) : Nat := 4294967295 ^^^ x

/-- Left rotation of a 32-bit word. -/
def rotl32 (x n : Nat) : Nat :=
  ((x <<< n) ||| (x >>> (32 - n))) % 4294967296

/-- The MD5 round function applied at step `i`. -/
def md5F (i b c d : Nat) : Nat :=
  if i < 16 then (b &&& c) ||| (not32 b &&& d)
  else if i < 32 then (d &&& b) ||| (not32 d &&& c)
  else if i < 48 then b ^^^ c ^^^ d
  else c ^^^ (b ||| not32 d)

/-- The message-word index used at step `i`. -/
def md5G (i : Nat) : Nat :=
  if i < 16 then i
  else if i < 32 then (5 * i + 1) % 16
  else if i < 48 then (3 * i + 5) % 16
  else (7 * i) % 16

/-- Four little-endian bytes of a 32-bit word. -/
def le32 (n : Nat) : List Nat :=
  [n % 256, n / 256 % 256, n / 65536 % 256, n / 16777216 % 256]

/-- Eight little-endian bytes of a 64-bit value. -/
def le64 (n : Nat) : List Nat :=
  le32 (n % 4294967296) ++ le32 (n / 4294967296 % 4294967296)

/-- MD5 padding: a 1-bit, zeros to 56 mod 64, then the 64-bit bit length. -/
def md5Pad (msg : List Nat) : List Nat :=
  msg ++ [128] ++ List.replicate ((119 - msg.length % 64) % 64) 0
      ++ le64 ((msg.length * 8) % 18446744073709551616)

/-- Split a byte list into little-endian 32-bit words. -/
def bytesToWords : List Nat → List Nat
  | b0 :: b1 :: b2 :: b3 :: rest =>
      (b0 + 256 * b1 + 65536 * b2 + 16777216 * b3) :: bytesToWords rest
  | _ => []

/-- One step of the MD5 compression function. -/
def md5Step (M : List Nat) (st : Nat × Nat × Nat × Nat) (i : Nat) :
    Nat × Nat × Nat × Nat :=
  let a := st.1
  let b := st.2.1
  let c := st.2.2.1
  let d := st.2.2.2
  let tmp := (a + md5F i b c d + md5K.getD i 0 + M.getD (md5G i) 0) % 4294967296
  (d, (b + rotl32 tmp (md5S.getD i 0)) % 4294967296, b, c)

/-- Process one 64-byte block. -/
def md5Block (st : Nat × Nat × Nat × Nat) (block : List Nat) :
    Nat × Nat × Nat × Nat :=
  let M := bytesToWords block
  let r := (List.range 64).foldl (md5Step M) st
  ((st.1 + r.1) % 4294967296, (st.2.1 + r.2.1) % 4294967296,
   (st.2.2.1 + r.2.2.1) % 4294967296, (st.2.2.2 + r.2.2.2) % 4294967296)

/-- Split a byte list into 64-byte blocks; the fuel bounds the number of
blocks and is passed as the list length so it never runs out. -/
def chunks64Go : Nat → List Nat → List (List Nat)
  | _, [] => []
  | 0, _ => []
  | fuel + 1, x :: rest => (x :: rest.take 63) :: chunks64Go fuel (rest.drop 63)

/-- Split a padded message into 64-byte blocks. -/
def chunks64 (l : List Nat) : List (List Nat) := chunks64Go l.length l

/-- The MD5 state after hashing a byte string. -/
def md5State (msg : List Nat) : Nat × Nat × Nat × Nat :=
  (chunks64 (md5Pad msg)).foldl md5Block
    (1732584193, 4023233417, 2562383102, 271733878)

/-- `hashlib.md5(msg).hexdigest()`: the 32-character lowercase hex digest. -/
def md5Hex (msg : List Nat) : String :=
  let st := md5State msg
  ⟨(le32 st.1 ++ le32 st.2.1 ++ le32 st.2.2.1 ++ le32 st.2.2.2).flatMap byteHex⟩

/-! ## String ordering

Python compares strings lexicographically by Unicode code point; this is
the order `sorted()` uses for string keys and string set elements.  The
built-in `String` order of Lean does not reduce in the kernel, so the
same order is defined here directly on code-point lists. -/

/-- Lexicographic comparison of code-point lists (Python string `<=`). -/
def natListLe : List Nat → List Nat → Bool
  | [], _ => true
  | _ :: _, [] => false
  | a :: as, b :: bs =>
      if a < b then true else if b < a then false else natListLe as bs

/-- The code points of a string. -/
def codes (s : String) : List Nat := s.data.map Char.toNat

/-- Python string comparison `a <= b` (code-point lexicographic). -/
def strLe (a b : String) : Bool := natListLe (codes a) (codes b)

theorem natListLe_refl : ∀ l : List Nat, natListLe l l = true
  | [] => rfl
  | _ :: as => by simp [natListLe, natListLe_refl as]

theorem natListLe_total : ∀ a b : List Nat, natListLe a b = true ∨ natListLe b a = true
  | [], _ => Or.inl rfl
  | _ :: _, [] => Or.inr rfl
  | a :: as, b :: bs => by
    rcases Nat.lt_trichotomy a b with h | h | h
    · exact Or.inl (by simp [natListLe, h])
    · subst h
      rcases natListLe_total as bs with ih | ih
      · exact Or.inl (by simp [natListLe, ih])
      · exact Or.inr (by simp [natListLe, ih])
    · exact Or.inr (by simp [natListLe, h])

theorem natListLe_antisymm :
    ∀ a b : List Nat, natListLe a b = true → natListLe b a = true → a = b
  | [], [], _, _ => rfl
  | [], _ :: _, _, h => by simp [natListLe] at h
  | _ :: _, [], h, _ => by simp [natListLe] at h
  | a :: as, b :: bs, h₁, h₂ => by
    rcases Nat.lt_trichotomy a b with h | h | h
    · simp [natListLe, h, Nat.not_lt_of_lt h] at h₂
    · subst h
      simp only [natListLe, Nat.lt_irrefl, if_false] at h₁ h₂
      rw [natListLe_antisymm as bs h₁ h₂]
    · simp [natListLe, h, Nat.not_lt_of_lt h] at h₁

theorem natListLe_trans :
    ∀ a b c : List Nat, natListLe a b = true → natListLe b c = true →
      natListLe a c = true
  | [], _, _, _, _ => rfl
  | _ :: _, [], _, h, _ => by simp [natListLe] at h
  | _ :: _, _ :: _, [], _, h => by simp [natListLe] at h
  | a :: as, b :: bs, c :: cs, h₁, h₂ => by
    rcases Nat.lt_trichotomy a b with hab | hab | hab <;>
      rcases Nat.lt_trichotomy b c with hbc | hbc | hbc
    · simp [natListLe, Nat.lt_trans hab hbc]
    · subst hbc; simp [natListLe, hab]
    · rcases Nat.lt_trichotomy a c with h | h | h
      · simp [natListLe, h]
      · subst h; simp [natListLe, hbc, Nat.not_lt_of_lt hbc] at h₂
      · simp [natListLe, hbc, Nat.not_lt_of_lt hbc] at h₂
    · subst hab; simp [natListLe, hbc]
    · subst hab; subst hbc
      simp only [natListLe, Nat.lt_irrefl, if_false] at h₁ h₂ ⊢
      exact natListLe_trans as bs cs h₁ h₂
    · subst hab; simp [natListLe, hbc, Nat.not_lt_of_lt hbc] at h₂
    · simp [natListLe, hab, Nat.not_lt_of_lt hab] at h₁
    · simp [natListLe, hab, Nat.not_lt_of_lt hab] at h₁
    · simp [natListLe, hab, Nat.not_lt_of_lt hab] at h₁

theorem codes_injective {a b : String} (h : codes a = codes b) : a = b := by
  apply String.ext
  have : ∀ l₁ l₂ : List Char, l₁.map Char.toNat = l₂.map Char.toNat → l₁ = l₂ := by
    intro l₁
    induction l₁ with
    | nil => intro l₂ h; cases l₂ <;> simp_all
    | cons x xs ih =>
      intro l₂ h
      cases l₂ with
      | nil => simp at h
      | cons y ys =>
        simp only [List.map, List.cons.injEq] at h
        have hx : x = y := by
          have := congrArg Char.ofNat h.1
          rwa [Char.ofNat_toNat, Char.ofNat_toNat] at this
        exact hx ▸ congrArg (x :: ·) (ih ys h.2)
  exact this a.data b.data h

theorem strLe_refl (a : String) : strLe a a = true := natListLe_refl _

theorem strLe_total (a b : String) : strLe a b = true ∨ strLe b a = true :=
  natListLe_total _ _

theorem strLe_trans {a b c : String} (h₁ : strLe a b = true)
    (h₂ : strLe b c = true) : strLe a c = true :=
  natListLe_trans _ _ _ h₁ h₂

theorem strLe_antisymm {a b : String} (h₁ : strLe a b = true)
    (h₂ : strLe b a = true) : a = b :=
  codes_injective (natListLe_antisymm _ _ h₁ h₂)

/-- The sort order on strings, as a `Prop` relation for `insertionSort`. -/
def strLeR (a b : String) : Prop := strLe a b = true

instance : DecidableRel strLeR := fun _ _ => instDecidableEqBool _ _

instance : IsTotal String strLeR := ⟨strLe_total⟩

instance : IsTrans String strLeR := ⟨fun _ _ _ => strLe_trans⟩

instance : IsAntisymm String strLeR := ⟨fun _ _ => strLe_antisymm⟩

/-- Order on key/value pairs by key, as used by `sort_keys=True`. -/
def keyLe (p q : String × String) : Prop := strLe p.1 q.1 = true

/-- Strict version of `keyLe`; on pairs with distinct keys the two orders
sort identically. -/
def keyLt (p q : String × String) : Prop := strLe p.1 q.1 = true ∧ p.1 ≠ q.1

instance : DecidableRel keyLe := fun _ _ => instDecidableEqBool _ _

instance : IsTotal (String × String) keyLe := ⟨fun p q => strLe_total p.1 q.1⟩

instance : IsTrans (String × String) keyLe := ⟨fun _ _ _ => strLe_trans⟩

instance : IsAntisymm (String × String) keyLt :=
  ⟨fun _ _ h₁ h₂ => absurd (strLe_antisymm h₁.1 h₂.1) h₁.2⟩

/-! ## JSON string escaping (`json.dumps` with `ensure_ascii=True`) -/

/-- Four hex digits of a 16-bit value. -/
def hex4 (n : Nat) : List Char :=
  [hexDigit (n / 4096 % 16), hexDigit (n / 256 % 16),
   hexDigit (n / 16 % 16), hexDigit (n % 16)]

/-- Escape one code point exactly as CPython's
`json.encoder.py_encode_basestring_ascii` does. -/
def escapeChar (c : Nat) : List Char :=
  if c = 34 then ['\\', '"']
  else if c = 92 then ['\\', '\\']
  else if c = 8 then ['\\', 'b']
  else if c = 9 then ['\\', 't']
  else if c = 10 then ['\\', 'n']
  else if c = 12 then ['\\', 'f']
  else if c = 13 then ['\\', 'r']
  else if c < 32 || c > 126 then
    if c < 65536 then '\\' :: 'u' :: hex4 c
    else ('\\' :: 'u' :: hex4 (55296 + (c - 65536) / 1024))
      ++ ('\\' :: 'u' :: hex4 (56320 + (c - 65536) % 1024))
  else [Char.ofNat c]

/-- The JSON string literal for `s`, double quotes included. -/
def quoteJsonString (s : String) : String :=
  ⟨'"' :: s.data.flatMap (fun ch => escapeChar ch.toNat) ++ ['"']⟩


/-! ## Configuration values and `serialize`

`serialize(options)` is `json.dumps(options, sort_keys=True,
cls=_CustomEncoder)`.  A configuration value is an arbitrary nesting of
the JSON scalars, lists, dicts, plus the two shapes `_CustomEncoder`
handles: sets (whose elements are the strings flake8 option values use)
and namespace-like objects (`argparse.Namespace` / `JobsArgument`, an
attribute bag).  `_CustomEncoder.default` turns a set into the *sorted*
list of the JSON *encodings* of its elements, and a namespace into the
dict mapping each attribute name to the JSON *encoding* of its value;
`sort_keys=True` makes `json.dumps` emit every mapping sorted by key.
Sorting by key commutes with encoding the values, so the model sorts the
already-encoded pairs; the output string is identical. -/

inductive ConfigValue where
  | null
  | bool (b : Bool)
  | num (n : Int)
  | str (s : String)
  | list (xs : List ConfigValue)
  | set (xs : List String)
  | dict (kvs : List (String × ConfigValue))
  | nsp (kvs : List (String × ConfigValue))

/-- `", ".join`: the default `json.dumps` item separator. -/
def joinSep (sep : String) : List String → String
  | [] => ""
  | [x] => x
  | x :: rest => x ++ sep ++ joinSep sep rest

/-- Sort encoded key/value pairs by key (`sort_keys=True`). -/
def sortPairs (l : List (String × String)) : List (String × String) :=
  List.insertionSort keyLe l

/-- Sort a string set's elements (Python `sorted` on strings). -/
def sortStrs (l : List String) : List String :=
  List.insertionSort strLeR l

mutual

/-- The JSON text `json.dumps(v, sort_keys=True, cls=_CustomEncoder)`. -/
def serializeVal : ConfigValue → String
  | .null => "null"
  | .bool b => cond b "true" "false"
  | .num n => toString n
  | .str s => quoteJsonString s
  | .list xs => "[" ++ joinSep (", ") (serializeList xs) ++ "]"
  | .set xs => "[" ++
      joinSep (", ") ((sortStrs xs).map (fun s => quoteJsonString (quoteJsonString s))) ++ "]"
  | .dict kvs => "\x7b" ++
      joinSep (", ") ((sortPairs (serializeKvs kvs)).map
        (fun p => quoteJsonString p.1 ++ ": " ++ p.2)) ++ "\x7d"
  | .nsp kvs => "\x7b" ++
      joinSep (", ") ((sortPairs (serializeKvs kvs)).map
        (fun p => quoteJsonString p.1 ++ ": " ++ quoteJsonString p.2)) ++ "\x7d"

/-- Encodings of the elements of a list value. -/
def serializeList : List ConfigValue → List String
  | [] => []
  | x :: rest => serializeVal x :: serializeList rest

/-- Pairs of key and encoded value of a dict or namespace. -/
def serializeKvs : List (String × ConfigValue) → List (String × String)
  | [] => []
  | (k, v) :: rest => (k, serializeVal v) :: serializeKvs rest

end


example :
    serializeVal (.dict [("x", .set ["E1"])])
      = serializeVal (.dict [("x", .list [.str "\"E1\""])]) := by decide

/-! ## Key derivation (`Snapshot.create`)

`create` hashes the serialized configuration followed by the resolved
absolute file path and names the cache file by the hex digest.  Path
resolution (`Path(...).resolve()`) is an operating-system lookup; the
model takes the already-resolved absolute path as input. -/

/-- The hex digest naming the cache entry for (configuration, file). -/
def cacheKey (options : ConfigValue) (resolvedPath : String) : String :=
  md5Hex (strBytes (serializeVal options) ++ strBytes resolvedPath)

/-! ## JSON record values

The persisted record is produced by `json.dumps` in `Snapshot.dumps` and
consumed by `json.loads` in `Snapshot.exists` / `Snapshot.results`.  The
standard-library round trip `loads(dumps(x)) == x` is modelled by storing
the structured value itself; a cache file whose text does not parse is
the `corrupt` state. -/

inductive Json where
  | null
  | bool (b : Bool)
  | num (n : Int)
  | str (s : String)
  | arr (xs : List Json)
  | obj (kvs : List (String × Json))

/-- `obj[key]` for a parsed JSON value: `none` models a `KeyError` (or a
`TypeError` when the value is not an object).  As `dict` construction
does, a duplicated key keeps the last occurrence. -/
def jsonGet (j : Json) (key : String) : Option Json :=
  match j with
  | .obj kvs => kvs.foldl (fun acc kv => if kv.1 = key then some kv.2 else acc) none
  | _ => none

/-- Python `==` between a loaded JSON value and a `str` digest. -/
def jsonEqStr (j : Json) (s : String) : Bool :=
  match j with
  | .str t => t = s
  | _ => false

/-- Content of one cache file: a value that parses, or text that fails
`json.loads`. -/
inductive Stored where
  | data (j : Json)
  | corrupt

/-- The filesystem visible to one Snapshot: the analyzed files' bytes and
the cache files' contents, each addressed by path. -/
structure FS where
  target : String → Option (List Nat)
  cache : String → Option Stored

/-- Failures the cache layer can raise to its caller. -/
inductive CacheErr where
  | parseError   -- json.loads on a corrupted record
  | keyError     -- missing 'digest' or 'results' field
  | ioError      -- reading a cache file that is not there

/-! ## Snapshot -/

/-- One cache entry handle; `_exists`, `_digest` and `_results` are the
instance-lifetime memo fields of the Python class. -/
structure Snapshot where
  cache_path : String
  file_path : String
  _exists : Option Bool := none
  _digest : Option String := none
  _results : Option Json := none

/-- `Snapshot.create`: derive the paths for (configuration, file). -/
def Snapshot.create (cacheDir : String) (options : ConfigValue)
    (resolvedPath : String) : Snapshot :=
  { cache_path := cacheDir ++ "/" ++ cacheKey options resolvedPath ++ ".json",
    file_path := resolvedPath }

/-- The `digest` property: hex digest of the file's current bytes,
memoized; `none` for a file that does not exist (stdin). -/
def Snapshot.digest (s : Snapshot) (fs : FS) : Option String × Snapshot :=
  match s._digest with
  | some d => (some d, s)
  | none =>
    match fs.target s.file_path with
    | none => (none, s)
    | some bytes =>
        let d := md5Hex bytes
        (some d, { s with _digest := some d })

/-- Result of one `exists()` call: the boolean, the snapshot with its
updated memo fields, and how many times the persisted record was read
from disk during the call. -/
structure ExistsOut where
  val : Bool
  snap : Snapshot
  reads : Nat

/-- `Snapshot.exists`: the validity check of lines 73-94, with the check
of `cache_path.exists()` and the later `read_text` modelled as one lookup
of the unchanging filesystem. -/
def Snapshot.exists (s : Snapshot) (fs : FS) : Except CacheErr ExistsOut :=
  match s._exists with
  | some b => .ok ⟨b, s, 0⟩
  | none =>
    match fs.cache s.cache_path with
    | none => .ok ⟨false, { s with _exists := some false }, 0⟩
    | some stored =>
      match s.digest fs with
      | (none, s₁) => .ok ⟨false, s₁, 0⟩
      | (some d, s₁) =>
        match stored with
        | .corrupt => .error .parseError
        | .data j =>
          match jsonGet j ("digest") with
          | none => .error .keyError
          | some dj =>
            if jsonEqStr dj d then
              match jsonGet j ("results") with
              | none => .error .keyError
              | some r =>
                  .ok ⟨true, { s₁ with _exists := some true, _results := some r }, 1⟩
            else .ok ⟨false, { s₁ with _exists := some false }, 1⟩

/-- The record value `dumps` builds: `dict(results=..., digest=...)`. -/
def Snapshot.record (d : Option String) (results : Json) : Json :=
  .obj [("results", results), ("digest", match d with | none => .null | some dg => .str dg)]

/-- `Snapshot.dump`: write the record at `cache_path`, overwriting.  The
returned snapshot carries the digest memo `dumps` may have filled. -/
def Snapshot.dump (s : Snapshot) (results : Json) (fs : FS) : Snapshot × FS :=
  let r := s.digest fs
  (r.2, { fs with cache := fun p =>
      if p = s.cache_path then some (.data (Snapshot.record r.1 results)) else fs.cache p })

/-- The sequence of filesystem states a concurrent reader can observe
during `dump`.  `Path.write_text` opens the file in mode `w` — which
truncates it on open — and then writes the text, so the truncated file
(empty text, which does not parse as JSON) is an observable intermediate
state. -/
def Snapshot.dumpStates (s : Snapshot) (results : Json) (fs : FS) : List FS :=
  [{ fs with cache := fun p =>
       if p = s.cache_path then some .corrupt else fs.cache p },
   (s.dump results fs).2]

/-- The `results` property: the memo filled by a successful `exists()`,
else read and decode the record. -/
def Snapshot.results (s : Snapshot) (fs : FS) : Except CacheErr Json :=
  match s._results with
  | some r => .ok r
  | none =>
    match fs.cache s.cache_path with
    | none => .error .ioError
    | some .corrupt => .error .parseError
    | some (.data j) =>
      match jsonGet j ("results") with
      | none => .error .keyError
      | some r => .ok r

/-! ## Cache directory preparation (`prepare_cache`) -/

/-- One directory entry: its name and last-access time in seconds. -/
structure DirEntry where
  name : String
  atime : Nat

/-- The cache directory: whether it (and its parents) exist, and its
entries. -/
structure CacheDir where
  present : Bool
  parents : Bool
  entries : List DirEntry

/-- `prepare_cache` without interference: create the directory (with
parents) when absent, otherwise delete every entry whose age exceeds the
threshold.  `time()` is modelled as the single instant `now`. -/
def prepare_cache (now threshold : Nat) (d : CacheDir) : CacheDir :=
  if d.present then
    { d with entries := d.entries.filter (fun e => now - e.atime ≤ threshold) }
  else
    { present := true, parents := true, entries := [] }

/-- `prepare_cache`'s sweep when other processes may delete entries
between `iterdir` and `stat`: `removed` tells which listed names are
already gone; `fpath.stat()` then raises `FileNotFoundError`, which
nothing in `prepare_cache` catches. -/
def prune_race (now threshold : Nat) (removed : String → Bool) :
    List DirEntry → Except Unit (List DirEntry)
  | [] => .ok []
  | e :: es =>
    if removed e.name then .error ()
    else
      match prune_race now threshold removed es with
      | .error u => .error u
      | .ok rest =>
          .ok (if now - e.atime ≤ threshold then e :: rest else rest)

/-! ## Equality of effective options

Two configuration values carry the same effective options when they agree
up to the insertion order of dict keys, set elements and namespace
attributes, recursively.  `SameOptions` is the smallest such congruence;
the permutation constructors for mappings require the keys to be distinct,
as they are in any Python `dict` or attribute namespace. -/

inductive SameOptions : ConfigValue → ConfigValue → Prop where
  | refl (a) : SameOptions a a
  | trans {a b c} : SameOptions a b → SameOptions b c → SameOptions a c
  | listCons {x y xs ys} : SameOptions x y →
      SameOptions (.list xs) (.list ys) →
      SameOptions (.list (x :: xs)) (.list (y :: ys))
  | setPerm {xs ys} : xs.Perm ys → SameOptions (.set xs) (.set ys)
  | dictCons (k) {v w kvs kws} : SameOptions v w →
      SameOptions (.dict kvs) (.dict kws) →
      SameOptions (.dict ((k, v) :: kvs)) (.dict ((k, w) :: kws))
  | dictPerm {kvs kvs'} : kvs.Perm kvs' → (kvs.map Prod.fst).Nodup →
      SameOptions (.dict kvs) (.dict kvs')
  | nspCons (k) {v w kvs kws} : SameOptions v w →
      SameOptions (.nsp kvs) (.nsp kws) →
      SameOptions (.nsp ((k, v) :: kvs)) (.nsp ((k, w) :: kws))
  | nspPerm {kvs kvs'} : kvs.Perm kvs' → (kvs.map Prod.fst).Nodup →
      SameOptions (.nsp kvs) (.nsp kvs')

/-- Constructor discriminator of a configuration value. -/
def ctorTag : ConfigValue → Nat
  | .null => 0
  | .bool _ => 1
  | .num _ => 2
  | .str _ => 3
  | .list _ => 4
  | .set _ => 5
  | .dict _ => 6
  | .nsp _ => 7

/-- The ordered pieces a value's serialization is assembled from: for a
mapping, the sorted (key, encoded value) pairs; for a sequence, the
encoded elements with a dummy key. -/
def parts : ConfigValue → List (String × String)
  | .null => [("", serializeVal .null)]
  | .bool b => [("", serializeVal (.bool b))]
  | .num n => [("", serializeVal (.num n))]
  | .str s => [("", serializeVal (.str s))]
  | .list xs => (serializeList xs).map (fun s => ("", s))
  | .set xs => (sortStrs xs).map (fun s => ("", quoteJsonString s))
  | .dict kvs => sortPairs (serializeKvs kvs)
  | .nsp kvs => sortPairs (serializeKvs kvs)

theorem serializeKvs_eq_map (kvs : List (String × ConfigValue)) :
    serializeKvs kvs = kvs.map (fun kv => (kv.1, serializeVal kv.2)) := by
  induction kvs with
  | nil => rfl
  | cons kv rest ih => cases kv; simp [serializeKvs, ih]

/-- A value's serialization is determined by its constructor and parts. -/
theorem serializeVal_eq_of_parts {a b : ConfigValue}
    (ht : ctorTag a = ctorTag b) (hp : parts a = parts b) :
    serializeVal a = serializeVal b := by
  cases a <;> cases b <;> simp_all [ctorTag]
  case bool.bool => simpa [parts] using hp
  case num.num => simpa [parts] using hp
  case str.str => simpa [parts] using hp
  case list xs ys =>
    have : serializeList xs = serializeList ys := by
      have := congrArg (List.map Prod.snd) hp
      simpa [parts, List.map_map, Function.comp] using this
    simp [serializeVal, this]
  case set xs ys =>
    have : (sortStrs xs).map quoteJsonString = (sortStrs ys).map quoteJsonString := by
      have := congrArg (List.map Prod.snd) hp
      simpa [parts, List.map_map, Function.comp] using this
    have h2 := congrArg (List.map quoteJsonString) this
    simpa [serializeVal, List.map_map, Function.comp] using
      congrArg (fun l => "[" ++ joinSep (", ") l ++ "]") h2
  case dict kvs kws => simp [serializeVal, parts] at hp ⊢; rw [hp]
  case nsp kvs kws => simp [serializeVal, parts] at hp ⊢; rw [hp]

/-- Sorting by key maps a key-distinct permutation of encoded pairs to
the same sorted list. -/
theorem sortPairs_serializeKvs_perm {kvs kvs' : List (String × ConfigValue)}
    (hperm : kvs.Perm kvs') (hnodup : (kvs.map Prod.fst).Nodup) :
    sortPairs (serializeKvs kvs) = sortPairs (serializeKvs kvs') := by
  have hmapperm : (serializeKvs kvs).Perm (serializeKvs kvs') := by
    rw [serializeKvs_eq_map, serializeKvs_eq_map]
    exact hperm.map _
  have hnodup' : (kvs'.map Prod.fst).Nodup :=
    ((hperm.map Prod.fst).nodup_iff).mp hnodup
  have hsortperm : (sortPairs (serializeKvs kvs)).Perm (sortPairs (serializeKvs kvs')) :=
    (List.perm_insertionSort keyLe _).trans
      (hmapperm.trans (List.perm_insertionSort keyLe _).symm)
  have hstrict : ∀ (l : List (String × ConfigValue)), (l.map Prod.fst).Nodup →
      (sortPairs (serializeKvs l)).Sorted keyLt := by
    intro l hl
    have hsorted : (sortPairs (serializeKvs l)).Sorted keyLe :=
      List.sorted_insertionSort keyLe _
    have hnd : ((sortPairs (serializeKvs l)).map Prod.fst).Nodup := by
      have h1 := (List.perm_insertionSort keyLe (serializeKvs l)).map Prod.fst
      have h2 : (serializeKvs l).map Prod.fst = l.map Prod.fst := by
        rw [serializeKvs_eq_map, List.map_map]; rfl
      rw [h2] at h1
      exact (h1.nodup_iff).mpr hl
    have hne : (sortPairs (serializeKvs l)).Pairwise (fun p q => p.1 ≠ q.1) := by
      rw [List.Nodup, List.pairwise_map] at hnd
      exact hnd
    exact (hsorted.and hne).imp (fun h => ⟨h.1, h.2⟩)
  exact List.eq_of_perm_of_sorted hsortperm (hstrict _ hnodup) (hstrict _ hnodup')

/-- Strings sorted from permuted inputs coincide. -/
theorem sortStrs_perm {xs ys : List String} (h : xs.Perm ys) :
    sortStrs xs = sortStrs ys :=
  List.eq_of_perm_of_sorted
    ((List.perm_insertionSort strLeR xs).trans
      (h.trans (List.perm_insertionSort strLeR ys).symm))
    (List.sorted_insertionSort strLeR xs)
    (List.sorted_insertionSort strLeR ys)

/-- Configurations with the same effective options have identical
constructor and parts. -/
theorem sameOptions_parts {a b : ConfigValue} (h : SameOptions a b) :
    ctorTag a = ctorTag b ∧ parts a = parts b := by
  induction h with
  | refl a => exact ⟨rfl, rfl⟩
  | trans h₁ h₂ ih₁ ih₂ => exact ⟨ih₁.1.trans ih₂.1, ih₁.2.trans ih₂.2⟩
  | listCons hxy hls ih₁ ih₂ =>
    refine ⟨rfl, ?_⟩
    have hx := serializeVal_eq_of_parts ih₁.1 ih₁.2
    have htail := ih₂.2
    simp only [parts, serializeList, List.map] at htail ⊢
    rw [hx, htail]
  | setPerm hperm => exact ⟨rfl, by simp only [parts, sortStrs_perm hperm]⟩
  | dictCons k hvw hd ih₁ ih₂ =>
    refine ⟨rfl, ?_⟩
    have hv := serializeVal_eq_of_parts ih₁.1 ih₁.2
    have htail : sortPairs (serializeKvs _) = sortPairs (serializeKvs _) := ih₂.2
    simp only [parts, serializeKvs, sortPairs, List.insertionSort] at htail ⊢
    rw [hv, htail]
  | dictPerm hperm hnodup =>
    exact ⟨rfl, sortPairs_serializeKvs_perm hperm hnodup⟩
  | nspCons k hvw hd ih₁ ih₂ =>
    refine ⟨rfl, ?_⟩
    have hv := serializeVal_eq_of_parts ih₁.1 ih₁.2
    have htail : sortPairs (serializeKvs _) = sortPairs (serializeKvs _) := ih₂.2
    simp only [parts, serializeKvs, sortPairs, List.insertionSort] at htail ⊢
    rw [hv, htail]
  | nspPerm hperm hnodup =>
    exact ⟨rfl, sortPairs_serializeKvs_perm hperm hnodup⟩

/-- Serialization is invariant under reordering of effective options. -/
theorem serializeVal_sameOptions {a b : ConfigValue} (h : SameOptions a b) :
    serializeVal a = serializeVal b :=
  serializeVal_eq_of_parts (sameOptions_parts h).1 (sameOptions_parts h).2

mutual

/-- Number of set-valued nodes in a configuration value; `SameOptions`
preserves it, so a set value and a list value are never the same
effective options. -/
def setCount : ConfigValue → Nat
  | .set _ => 1
  | .list xs => setCountList xs
  | .dict kvs => setCountKvs kvs
  | .nsp kvs => setCountKvs kvs
  | _ => 0

/-- Total `setCount` of a list of values. -/
def setCountList : List ConfigValue → Nat
  | [] => 0
  | x :: rest => setCount x + setCountList rest

/-- Total `setCount` of the values of a key/value list. -/
def setCountKvs : List (String × ConfigValue) → Nat
  | [] => 0
  | kv :: rest => setCount kv.2 + setCountKvs rest

end

theorem setCountList_perm {xs ys : List ConfigValue} (h : xs.Perm ys) :
    setCountList xs = setCountList ys := by
  induction h with
  | nil => rfl
  | cons x _ ih => simp [setCountList, ih]
  | swap x y l => simp [setCountList]; omega
  | trans _ _ ih₁ ih₂ => exact ih₁.trans ih₂

theorem setCountKvs_perm {xs ys : List (String × ConfigValue)} (h : xs.Perm ys) :
    setCountKvs xs = setCountKvs ys := by
  induction h with
  | nil => rfl
  | cons x _ ih => simp [setCountKvs, ih]
  | swap x y l => simp [setCountKvs]; omega
  | trans _ _ ih₁ ih₂ => exact ih₁.trans ih₂

theorem sameOptions_setCount {a b : ConfigValue} (h : SameOptions a b) :
    setCount a = setCount b := by
  induction h with
  | refl a => rfl
  | trans _ _ ih₁ ih₂ => exact ih₁.trans ih₂
  | listCons _ _ ih₁ ih₂ =>
    simp only [setCount, setCountList] at ih₂ ⊢
    omega
  | setPerm _ => rfl
  | dictCons k _ _ ih₁ ih₂ =>
    simp only [setCount, setCountKvs] at ih₂ ⊢
    omega
  | dictPerm hperm _ => simpa [setCount] using setCountKvs_perm hperm
  | nspCons k _ _ ih₁ ih₂ =>
    simp only [setCount, setCountKvs] at ih₂ ⊢
    omega
  | nspPerm hperm _ => simpa [setCount] using setCountKvs_perm hperm

/-! ## Claim theorems -/

/-- C3: two configurations with the same effective options — equal up to
the insertion order of mapping keys, set elements and namespace
attributes, recursively — and the same resolved target file derive the
same cache key and hence the same cache location: serialization sorts
mapping keys, set values and namespace attributes, so it is
deterministic. -/
theorem c3_key_deterministic (cacheDir : String) (o₁ o₂ : ConfigValue)
    (p : String) (h : SameOptions o₁ o₂) :
    cacheKey o₁ p = cacheKey o₂ p ∧
      Snapshot.create cacheDir o₁ p = Snapshot.create cacheDir o₂ p := by
  have hk : cacheKey o₁ p = cacheKey o₂ p := by
    unfold cacheKey
    rw [serializeVal_sameOptions h]
  exact ⟨hk, by unfold Snapshot.create; rw [hk]⟩

/-- C3 witness: a dict with its two keys inserted in either order, whose
set-valued option lists its elements in either order, derives the same
snapshot. -/
theorem c3_key_deterministic_witness :
    SameOptions (.dict [("b", .num 1), ("a", .set ["E2", "E1"])])
        (.dict [("a", .set ["E1", "E2"]), ("b", .num 1)]) ∧
      Snapshot.create ("/cache") (.dict [("b", .num 1), ("a", .set ["E2", "E1"])]) ("/a.py")
        = Snapshot.create ("/cache") (.dict [("a", .set ["E1", "E2"]), ("b", .num 1)]) ("/a.py") := by
  have hset : SameOptions (.set ["E2", "E1"]) (.set ["E1", "E2"]) :=
    SameOptions.setPerm (List.Perm.swap ("E1") ("E2") [])
  have hvals : SameOptions (.dict [("b", .num 1), ("a", .set ["E2", "E1"])])
      (.dict [("b", .num 1), ("a", .set ["E1", "E2"])]) :=
    SameOptions.dictCons ("b") (SameOptions.refl _)
      (SameOptions.dictCons ("a") hset (SameOptions.refl _))
  have hperm : SameOptions (.dict [("b", .num 1), ("a", .set ["E1", "E2"])])
      (.dict [("a", .set ["E1", "E2"]), ("b", .num 1)]) :=
    SameOptions.dictPerm
      (List.Perm.swap (("a", ConfigValue.set ["E1", "E2"])) (("b", ConfigValue.num 1)) [])
      (by decide)
  have h := SameOptions.trans hvals hperm
  exact ⟨h, (c3_key_deterministic ("/cache") _ _ ("/a.py") h).2⟩

/-- C9 counterexample: the encoder turns a set into the list of the JSON
encodings of its elements, so the configuration selecting the set with
element `E1` and the configuration holding the list with the string
element `"E1"` (quotes included) — which differ in an effective option —
serialize identically and derive the same cache key. -/
theorem c9_distinct_configs_collide :
    ¬ SameOptions (.dict [("x", .set ["E1"])]) (.dict [("x", .list [.str "\"E1\""])]) ∧
      cacheKey (.dict [("x", .set ["E1"])]) ("/a.py")
        = cacheKey (.dict [("x", .list [.str "\"E1\""])]) ("/a.py") := by
  constructor
  · intro h
    have := sameOptions_setCount h
    simp [setCount, setCountKvs, setCountList] at this
  · have h : serializeVal (.dict [("x", .set ["E1"])])
        = serializeVal (.dict [("x", .list [.str "\"E1\""])]) := by decide
    unfold cacheKey
    rw [h]

/-- C9 amended: key derivation may collide for distinct configurations
(the set/list encoding overlap above); for the spec's documented corpus —
selecting `[E1]` versus `[E1, E2]` — the serializations and the derived
cache keys differ. -/
theorem c9_corpus_keys_differ :
    serializeVal (.dict [("select", .list [.str "E1"])])
        ≠ serializeVal (.dict [("select", .list [.str "E1", .str "E2"])]) ∧
      cacheKey (.dict [("select", .list [.str "E1"])]) ("/a.py")
        ≠ cacheKey (.dict [("select", .list [.str "E1", .str "E2"])]) ("/a.py") := by
  constructor
  · decide
  · unfold cacheKey
    decide

/-- C6: on an existing directory, `prepare_cache` keeps exactly the
entries whose age `now - atime` is within the threshold — deleting
exactly those exceeding it, and leaving kept entries (including their
access times) untouched; on an absent path it creates the directory with
its parents and prunes nothing. -/
theorem c6_prune_exact (now threshold : Nat) (d : CacheDir) :
    (d.present = true →
      prepare_cache now threshold d
          = { d with entries := d.entries.filter (fun e => now - e.atime ≤ threshold) } ∧
        ∀ e, e ∈ (prepare_cache now threshold d).entries ↔
          (e ∈ d.entries ∧ now - e.atime ≤ threshold)) ∧
    (d.present = false → prepare_cache now threshold d = ⟨true, true, []⟩) := by
  constructor
  · intro hp
    refine ⟨by simp [prepare_cache, hp], ?_⟩
    intro e
    simp [prepare_cache, hp, List.mem_filter]
  · intro hp
    simp [prepare_cache, hp]

/-- C6 witness: with the threshold at 10 seconds and the clock at 100,
the entry accessed at time 0 is deleted and the one accessed at 95 is
kept unchanged. -/
theorem c6_prune_exact_witness :
    prepare_cache 100 10 ⟨true, true, [⟨"old", 0⟩, ⟨"new", 95⟩]⟩
        = ⟨true, true, [⟨"new", 95⟩]⟩ ∧
      (⟨"old", 0⟩ ∈ (prepare_cache 100 10 ⟨true, true, [⟨"old", 0⟩, ⟨"new", 95⟩]⟩).entries
        ↔ ((⟨"old", 0⟩ : DirEntry) ∈ [(⟨"old", 0⟩ : DirEntry), ⟨"new", 95⟩] ∧ 100 - 0 ≤ 10)) := by
  have h := (c6_prune_exact 100 10 ⟨true, true, [⟨"old", 0⟩, ⟨"new", 95⟩]⟩).1 rfl
  exact ⟨by rw [h.1]; rfl, h.2 ⟨"old", 0⟩⟩

/-- C7 counterexample: an entry removed by another process between the
directory listing and its `stat` makes the sweep raise (the
`FileNotFoundError` of `fpath.stat()` propagates), even though the entry
was within the threshold; the race is not ignored. -/
theorem c7_race_raises :
    prune_race 100 10 (fun n => n == "gone") [⟨"gone", 99⟩] = .error () := rfl

/-- C7 amended: the eviction sweep raises a missing-file error exactly
when some listed entry has been concurrently removed before its `stat`;
nothing in `prepare_cache` catches it. -/
theorem c7_race_error_iff (now threshold : Nat) (removed : String → Bool)
    (es : List DirEntry) :
    prune_race now threshold removed es = .error () ↔
      ∃ e ∈ es, removed e.name = true := by
  induction es with
  | nil => simp [prune_race]
  | cons e rest ih =>
    by_cases hr : removed e.name = true
    · simp [prune_race, hr]
    · simp only [Bool.not_eq_true] at hr
      cases hrec : prune_race now threshold removed rest with
      | error u =>
        cases u
        constructor
        · intro _
          obtain ⟨x, hx, hxr⟩ := ih.mp hrec
          exact ⟨x, List.mem_cons_of_mem _ hx, hxr⟩
        · intro _
          simp [prune_race, hr, hrec]
      | ok kept =>
        constructor
        · intro h'
          simp [prune_race, hr, hrec] at h'
        · rintro ⟨x, hx, hxr⟩
          rcases List.mem_cons.mp hx with rfl | hx'
          · simp [hr] at hxr
          · have herr : prune_race now threshold removed rest = .error () :=
              ih.mpr ⟨x, hx', hxr⟩
            rw [hrec] at herr
            exact absurd herr (by simp)

/-- Prior filesystem used by the C4 counterexample: the target file holds
one byte and the cache file holds an older record. -/
def fs4 : FS :=
  { target := fun p => if p = "/a.py" then some [97] else none,
    cache := fun p => if p = "/k.json" then some (.data (.obj [("old", .null)])) else none }

/-- The snapshot the C4 counterexample dumps through. -/
def s4 : Snapshot := { cache_path := "/k.json", file_path := "/a.py" }

/-- The record `dump` writes in the C4 counterexample. -/
def rec4 : Json := Snapshot.record (some (md5Hex [97])) (.arr [])

/-- C4 counterexample: `dump` writes with `Path.write_text`, which opens
the file truncating it and then writes; the truncated state — unparseable
text that is neither the prior record nor the new one — is observable by
a concurrent reader, so the write is not all-or-nothing. -/
theorem c4_dump_not_atomic :
    (Snapshot.dumpStates s4 (.arr []) fs4).map (fun f => f.cache (s4.cache_path))
        = [some .corrupt, some (.data rec4)] ∧
      some Stored.corrupt ≠ fs4.cache s4.cache_path ∧
      some Stored.corrupt ≠ some (Stored.data rec4) := by
  refine ⟨rfl, ?_, ?_⟩
  · intro h
    simp [fs4, s4] at h
  · intro h
    simp at h

/-- C4 amended: `dump` does write a record with exactly the two top-level
fields `results` and `digest` (the content digest) to `cache_path`, fully
overwriting any prior content and touching no other path — but through a
plain truncating write, not a write-then-rename, so a partial state is
observable (see the counterexample). -/
theorem c4_dump_record (s : Snapshot) (r : Json) (fs : FS) :
    ∃ kvs, (s.dump r fs).2.cache s.cache_path = some (.data (.obj kvs)) ∧
      kvs.map Prod.fst = [("results" : String), ("digest" : String)] ∧
      jsonGet (.obj kvs) ("results") = some r ∧
      jsonGet (.obj kvs) ("digest")
        = some (match (s.digest fs).1 with | none => Json.null | some dg => .str dg) ∧
      (∀ p, (s.dump r fs).2.cache p
        = if p = s.cache_path then some (.data (.obj kvs)) else fs.cache p) ∧
      (s.dump r fs).2.target = fs.target := by
  refine ⟨[("results", r),
    ("digest", match (s.digest fs).1 with | none => Json.null | some dg => .str dg)],
    ?_, rfl, ?_, ?_, fun p => rfl, rfl⟩
  · simp [Snapshot.dump, Snapshot.record]
  · simp [jsonGet]
  · simp [jsonGet]

/-- If the digest property produced a value, the returned snapshot has it
memoized. -/
theorem digest_memoized {s : Snapshot} {fs : FS} {d : String}
    (h : (s.digest fs).1 = some d) : (s.digest fs).2._digest = some d := by
  unfold Snapshot.digest at h ⊢
  cases hd : s._digest with
  | some d' => simp [hd] at h ⊢; exact h
  | none =>
    cases ht : fs.target s.file_path with
    | none => simp [hd, ht] at h
    | some bytes => simp [hd, ht] at h ⊢; exact h

/-- C10: once the digest property has produced a value, it is memoized
for the snapshot's lifetime: any later access — against any filesystem
state, in particular after the target file's bytes changed — returns the
first value, and a `dump` performed afterwards persists that possibly
stale digest into the record. -/
theorem c10_digest_memo (s : Snapshot) (fs fs' : FS) (d : String) (r : Json)
    (h : (s.digest fs).1 = some d) :
    (s.digest fs).2.digest fs' = (some d, (s.digest fs).2) ∧
      ((s.digest fs).2.dump r fs').2.cache (s.digest fs).2.cache_path
        = some (.data (Snapshot.record (some d) r)) := by
  have hm := digest_memoized h
  set s₁ := (s.digest fs).2 with hs₁
  constructor
  · show s₁.digest fs' = (some d, s₁)
    unfold Snapshot.digest
    rw [hm]
  · show (s₁.dump r fs').2.cache s₁.cache_path = some (.data (Snapshot.record (some d) r))
    unfold Snapshot.dump Snapshot.digest
    rw [hm]
    simp

/-- Filesystem for the C10 witness, before the target file changes. -/
def fsapyA : FS :=
  { target := fun p => if p = "/a.py" then some [49] else none,
    cache := fun _ => none }

/-- Filesystem for the C10 witness, after the target file's bytes
changed from `1` to `2`. -/
def fsapyB : FS :=
  { target := fun p => if p = "/a.py" then some [50] else none,
    cache := fun _ => none }

/-- C10 witness: after digesting byte `1`, the digest re-read against the
changed file (byte `2`) still returns the digest of `1`, and a dump
persists it. -/
theorem c10_digest_memo_witness :
    ((s4.digest fsapyA).1 = some (md5Hex [49])) ∧
      (s4.digest fsapyA).2.digest fsapyB = (some (md5Hex [49]), (s4.digest fsapyA).2) ∧
      ((s4.digest fsapyA).2.dump (.arr []) fsapyB).2.cache (s4.digest fsapyA).2.cache_path
        = some (.data (Snapshot.record (some (md5Hex [49])) (.arr []))) := by
  have h : (s4.digest fsapyA).1 = some (md5Hex [49]) := rfl
  have hc := c10_digest_memo s4 fsapyA fsapyB (md5Hex [49]) (.arr []) h
  exact ⟨h, hc.1, hc.2⟩

/-- C5: a snapshot whose cache file exists but holds text that fails to
parse, and whose target file exists, propagates the `json.loads` failure
out of `exists()` instead of reporting a miss: line 88 runs outside any
handler. -/
theorem c5_corrupt_record_raises (s : Snapshot) (fs : FS) (bytes : List Nat)
    (he : s._exists = none) (hd : s._digest = none)
    (hc : fs.cache s.cache_path = some .corrupt)
    (ht : fs.target s.file_path = some bytes) :
    s.exists fs = .error .parseError := by
  unfold Snapshot.exists Snapshot.digest
  rw [he, hc, hd, ht]

/-- Filesystem for the C5 witness: target file present, cache file
present but corrupted. -/
def fs5 : FS :=
  { target := fun p => if p = "/a.py" then some [97] else none,
    cache := fun p => if p = "/k.json" then some .corrupt else none }

/-- C5 witness: the corrupted concrete cache entry makes `exists()`
produce the parse failure. -/
theorem c5_corrupt_record_raises_witness :
    s4.exists fs5 = .error .parseError :=
  c5_corrupt_record_raises s4 fs5 [97] rfl rfl rfl rfl

/-! Helpers naming the two digests claim C1 compares. -/

/-- Digest of the target file's current bytes; `none` when the file does
not exist. -/
def contentDigest (fs : FS) (p : String) : Option String :=
  (fs.target p).map md5Hex

/-- The `digest` field stored in the persisted record at `p`, when the
record exists, parses, and carries a string there. -/
def storedDigest (fs : FS) (p : String) : Option String :=
  match fs.cache p with
  | some (.data j) =>
    match jsonGet j ("digest") with
    | some (.str s) => some s
    | _ => none
  | _ => none

/-- A cache file, if it parses, is an actual record: it has the `digest`
and `results` fields every record written by `dumps` has. -/
def RecordWF : Option Stored → Prop
  | some (.data j) =>
      (jsonGet j ("digest")).isSome = true ∧ (jsonGet j ("results")).isSome = true
  | _ => True

/-- If the digest property returns `none`, the snapshot is unchanged. -/
theorem digest_none_snap {s : Snapshot} {fs : FS}
    (h : (s.digest fs).1 = none) : (s.digest fs).2 = s := by
  unfold Snapshot.digest at h ⊢
  cases hd : s._digest with
  | some d => simp [hd] at h
  | none =>
    cases ht : fs.target s.file_path with
    | none => simp [hd, ht]
    | some b => simp [hd, ht] at h

/-- C1: a fresh snapshot's `exists()` returns `True` exactly when the
cache file is present, the target file exists (its content digest is not
`None`), and the record's stored `digest` equals the digest of the
file's current bytes; and whenever the content digest is `None` it
returns `False` no matter what is stored at `cache_path`. -/
theorem c1_exists_iff (cp fp : String) (fs : FS)
    (hwf : RecordWF (fs.cache cp)) :
    ((∃ o, (Snapshot.mk cp fp none none none).exists fs = .ok o ∧ o.val = true) ↔
      ((fs.cache cp).isSome = true ∧ contentDigest fs fp ≠ none ∧
        storedDigest fs cp = contentDigest fs fp)) ∧
    (contentDigest fs fp = none →
      ∃ o, (Snapshot.mk cp fp none none none).exists fs = .ok o ∧ o.val = false) := by
  cases hc : fs.cache cp with
  | none =>
    have hx : (Snapshot.mk cp fp none none none).exists fs
        = .ok ⟨false, Snapshot.mk cp fp (some false) none none, 0⟩ := by
      simp [Snapshot.exists, hc]
    constructor
    · constructor
      · rintro ⟨o, ho, hv⟩
        rw [hx] at ho
        injection ho with ho'
        rw [← ho'] at hv
        simp at hv
      · rintro ⟨hsome, -, -⟩
        simp at hsome
    · intro _
      exact ⟨_, hx, rfl⟩
  | some stored =>
    cases ht : fs.target fp with
    | none =>
      have hcd : contentDigest fs fp = none := by simp [contentDigest, ht]
      have hx : (Snapshot.mk cp fp none none none).exists fs
          = .ok ⟨false, Snapshot.mk cp fp none none none, 0⟩ := by
        simp [Snapshot.exists, Snapshot.digest, hc, ht]
      constructor
      · constructor
        · rintro ⟨o, ho, hv⟩
          rw [hx] at ho
          injection ho with ho'
          rw [← ho'] at hv
          simp at hv
        · rintro ⟨-, hne, -⟩
          exact absurd hcd hne
      · intro _
        exact ⟨_, hx, rfl⟩
    | some bytes =>
      have hcd : contentDigest fs fp = some (md5Hex bytes) := by
        simp [contentDigest, ht]
      cases stored with
      | corrupt =>
        have hx : (Snapshot.mk cp fp none none none).exists fs = .error .parseError := by
          simp [Snapshot.exists, Snapshot.digest, hc, ht]
        constructor
        · constructor
          · rintro ⟨o, ho, -⟩
            rw [hx] at ho
            exact Except.noConfusion ho
          · rintro ⟨-, -, heq⟩
            rw [hcd] at heq
            simp [storedDigest, hc] at heq
        · intro hnone
          rw [hcd] at hnone
          exact Option.noConfusion hnone
      | data j =>
        rw [hc] at hwf
        obtain ⟨hdig, hres⟩ := hwf
        cases hg : jsonGet j ("digest") with
        | none => rw [hg] at hdig; simp at hdig
        | some dj =>
          cases hr : jsonGet j ("results") with
          | none => rw [hr] at hres; simp at hres
          | some rv =>
            by_cases hb : jsonEqStr dj (md5Hex bytes) = true
            · have hdjs : dj = .str (md5Hex bytes) := by
                cases dj <;> simp [jsonEqStr] at hb
                rw [hb]
              have hx : (Snapshot.mk cp fp none none none).exists fs
                  = .ok ⟨true,
                    Snapshot.mk cp fp (some true) (some (md5Hex bytes)) (some rv), 1⟩ := by
                simp [Snapshot.exists, Snapshot.digest, hc, ht, hg, hr, hb]
              have hsd : storedDigest fs cp = some (md5Hex bytes) := by
                simp [storedDigest, hc, hg, hdjs]
              constructor
              · constructor
                · intro _
                  exact ⟨rfl, by rw [hcd]; simp, by rw [hsd, hcd]⟩
                · intro _
                  exact ⟨_, hx, rfl⟩
              · intro hnone
                rw [hcd] at hnone
                exact Option.noConfusion hnone
            · have hx : (Snapshot.mk cp fp none none none).exists fs
                  = .ok ⟨false,
                    Snapshot.mk cp fp (some false) (some (md5Hex bytes)) none, 1⟩ := by
                simp [Snapshot.exists, Snapshot.digest, hc, ht, hg, hb]
              have hsd : storedDigest fs cp ≠ some (md5Hex bytes) := by
                intro hcontra
                simp only [storedDigest, hc, hg] at hcontra
                cases dj <;> simp at hcontra
                exact hb (by simp [jsonEqStr, hcontra])
              constructor
              · constructor
                · rintro ⟨o, ho, hv⟩
                  rw [hx] at ho
                  injection ho with ho'
                  rw [← ho'] at hv
                  simp at hv
                · rintro ⟨-, -, heq⟩
                  rw [hcd] at heq
                  exact absurd heq hsd
              · intro hnone
                rw [hcd] at hnone
                exact Option.noConfusion hnone

/-- Filesystem with the target file (one byte `a`) and a cache record
whose stored digest matches those bytes. -/
def fsC1 : FS :=
  { target := fun p => if p = "/a.py" then some [97] else none,
    cache := fun p =>
      if p = "/k.json" then some (.data (Snapshot.record (some (md5Hex [97])) (.arr [])))
      else none }

/-- C1 witness: against `fsC1`, a fresh snapshot reports a hit. -/
theorem c1_exists_iff_witness :
    ∃ o, (Snapshot.mk ("/k.json") ("/a.py") none none none).exists fsC1 = .ok o ∧
      o.val = true :=
  ((c1_exists_iff ("/k.json") ("/a.py") fsC1 ⟨rfl, rfl⟩).1).mpr
    ⟨rfl, fun hcontra => Option.noConfusion hcontra, rfl⟩

/-- C2: saving findings and asking a fresh snapshot for the same
(configuration, file) — same `cache_path`, same `file_path` — against the
resulting filesystem, with the file's bytes unchanged, reports a hit and
returns exactly the saved findings. -/
theorem c2_save_roundtrip (cp fp : String) (findings : Json) (fs : FS)
    (bytes : List Nat) (h : fs.target fp = some bytes) :
    ∃ o, (Snapshot.mk cp fp none none none).exists
        ((Snapshot.mk cp fp none none none).dump findings fs).2 = .ok o ∧
      o.val = true ∧
      o.snap.results ((Snapshot.mk cp fp none none none).dump findings fs).2
        = .ok findings := by
  have hfs : ((Snapshot.mk cp fp none none none).dump findings fs).2
      = { fs with cache := fun p =>
          if p = cp then some (.data (Snapshot.record (some (md5Hex bytes)) findings))
          else fs.cache p } := by
    simp [Snapshot.dump, Snapshot.digest, h]
  refine ⟨⟨true, Snapshot.mk cp fp (some true) (some (md5Hex bytes)) (some findings), 1⟩,
    ?_, rfl, rfl⟩
  rw [hfs]
  simp [Snapshot.exists, Snapshot.digest, h, Snapshot.record, jsonGet, jsonEqStr]

/-- C2 witness: saving empty findings for the one-byte file and re-asking
through a fresh snapshot round-trips. -/
theorem c2_save_roundtrip_witness :
    ∃ o, (Snapshot.mk ("/k.json") ("/a.py") none none none).exists
        ((Snapshot.mk ("/k.json") ("/a.py") none none none).dump (.arr []) fs5).2 = .ok o ∧
      o.val = true ∧
      o.snap.results ((Snapshot.mk ("/k.json") ("/a.py") none none none).dump (.arr []) fs5).2
        = .ok (.arr []) :=
  c2_save_roundtrip ("/k.json") ("/a.py") (.arr []) fs5 [97] rfl

/-- C8: when `exists()` returns a boolean, calling it again on the
returned snapshot against the unchanged filesystem returns the same
boolean, with zero reads of the persisted record during the second
call. -/
theorem c8_exists_idempotent (s : Snapshot) (fs : FS) (o : ExistsOut)
    (h : s.exists fs = .ok o) :
    o.snap.exists fs = .ok ⟨o.val, o.snap, 0⟩ := by
  cases he : s._exists with
  | some b =>
    have hx : s.exists fs = .ok ⟨b, s, 0⟩ := by simp [Snapshot.exists, he]
    rw [hx] at h
    injection h with h'
    subst h'
    exact hx
  | none =>
    cases hc : fs.cache s.cache_path with
    | none =>
      have hx : s.exists fs = .ok ⟨false, { s with _exists := some false }, 0⟩ := by
        simp [Snapshot.exists, he, hc]
      rw [hx] at h
      injection h with h'
      subst h'
      simp [Snapshot.exists]
    | some stored =>
      cases hdg : s.digest fs with
      | mk od s₁ =>
        cases od with
        | none =>
          have hs₁ : s₁ = s := by
            have h2 := @digest_none_snap s fs (by rw [hdg])
            rw [hdg] at h2
            exact h2
          rw [hs₁] at hdg
          have hx : s.exists fs = .ok ⟨false, s, 0⟩ := by
            simp [Snapshot.exists, he, hc, hdg]
          rw [hx] at h
          injection h with h'
          subst h'
          exact hx
        | some d =>
          cases stored with
          | corrupt =>
            have hx : s.exists fs = .error .parseError := by
              simp [Snapshot.exists, he, hc, hdg]
            rw [hx] at h
            exact Except.noConfusion h
          | data j =>
            cases hg : jsonGet j ("digest") with
            | none =>
              have hx : s.exists fs = .error .keyError := by
                simp [Snapshot.exists, he, hc, hdg, hg]
              rw [hx] at h
              exact Except.noConfusion h
            | some dj =>
              by_cases hb : jsonEqStr dj d = true
              · cases hr : jsonGet j ("results") with
                | none =>
                  have hx : s.exists fs = .error .keyError := by
                    simp [Snapshot.exists, he, hc, hdg, hg, hb, hr]
                  rw [hx] at h
                  exact Except.noConfusion h
                | some rv =>
                  have hx : s.exists fs
                      = .ok ⟨true, { s₁ with _exists := some true, _results := some rv }, 1⟩ := by
                    simp [Snapshot.exists, he, hc, hdg, hg, hb, hr]
                  rw [hx] at h
                  injection h with h'
                  subst h'
                  simp [Snapshot.exists]
              · have hx : s.exists fs
                    = .ok ⟨false, { s₁ with _exists := some false }, 1⟩ := by
                  simp [Snapshot.exists, he, hc, hdg, hg, hb]
                rw [hx] at h
                injection h with h'
                subst h'
                simp [Snapshot.exists]

/-- The snapshot state after the hit of `c8` 's first call. -/
def snapC8 : Snapshot :=
  ⟨"/k.json", "/a.py", some true, some (md5Hex [97]), some (.arr [])⟩

/-- C8 witness: after a first `exists()` returned a hit with one record
read, the repeated call returns the same `true` with zero reads. -/
theorem c8_exists_idempotent_witness :
    Snapshot.exists snapC8 fsC1 = .ok ⟨true, snapC8, 0⟩ :=
  c8_exists_idempotent s4 fsC1 ⟨true, snapC8, 1⟩ rfl

end Flakeheaven
